import Mathlib

set_option maxRecDepth 10000

/-!
Verification of the svg-server repository (src/src/main.rs).

Strings are modelled as `List Char` (the source operates on UTF-8 Rust
strings; every pattern involved — `<svg`, `>`, `height`, `width`, `"`,
`:`, `.svg` — is ASCII, so byte indices of the source correspond to
character indices of the model on the inputs the claims quantify over).

The two regular expressions of the source,
  HEIGHT_RE = height\s*=\s*"[^"]*"
  WIDTH_RE  = width\s*=\s*"[^"]*"
have deterministic matches: at a given start position, `\s*` must consume
the maximal whitespace run (the following `=` or `"` is not whitespace)
and `[^"]*` must stop at the first `"`.  `attrMatch` below computes the
length of the match starting at the head of the list, and `replaceAll`
mirrors `Regex::replace_all` (leftmost match, continue after its end).
The character class `\s` is modelled by its ASCII part; the claims only
involve ASCII whitespace.
-/

/-- ASCII part of the regex character class \s. -/
def isWs (c : Char) : Bool :=
  c = ' ' || c = '\t' || c = '\n' || c = '\x0b' || c = '\x0c' || c = '\r'

/-- Length (including the closing quote) of the `[^"]*"` part of the
pattern: number of characters up to and including the first `"`. -/
def scanValue : List Char → Option Nat
  | [] => none
  | c :: cs => if c = '"' then some 1 else (scanValue cs).map (· + 1)

/-- Length of the match of `name\s*=\s*"[^"]*"` starting at the head of
`s`, if any. -/
def attrMatch (name : List Char) (s : List Char) : Option Nat :=
  if s.take name.length = name then
    let r₁ := s.drop name.length
    let sp₁ := (r₁.takeWhile isWs).length
    match r₁.drop sp₁ with
    | '=' :: r₂ =>
      let sp₂ := (r₂.takeWhile isWs).length
      match r₂.drop sp₂ with
      | '"' :: r₃ =>
        match scanValue r₃ with
        | some v => some (name.length + sp₁ + 1 + sp₂ + 1 + v)
        | none => none
      | _ => none
    | _ => none
  else none

/-- Shared worker of the search functions below: position of the first
suffix of `s` satisfying `Q`, scanning left to right. -/
def firstIdx (Q : List Char → Bool) : List Char → Option Nat
  | [] => none
  | c :: cs => if Q (c :: cs) then some 0 else (firstIdx Q cs).map (· + 1)

/-- Position of the leftmost match of the pattern in `s`, if any. -/
def findAttr (name : List Char) (s : List Char) : Option Nat :=
  firstIdx (fun t => (attrMatch name t).isSome) s

/-- Whether the pattern matches anywhere in `s`. -/
def hasAttr (name s : List Char) : Bool :=
  (findAttr name s).isSome

/-- Worker for `replaceAll`: `skip > 0` means we are inside an already
replaced match and still have to pass over `skip` characters. -/
def replaceAllGo (name repl : List Char) : Nat → List Char → List Char
  | _ + 1, [] => []
  | k + 1, _ :: cs => replaceAllGo name repl k cs
  | 0, [] => []
  | 0, c :: cs =>
    match attrMatch name (c :: cs) with
    | some n => repl ++ replaceAllGo name repl (n - 1) cs
    | none => c :: replaceAllGo name repl 0 cs

/-- `Regex::replace_all`: replace every (leftmost, non-overlapping)
match of `name\s*=\s*"[^"]*"` in `s` by `repl`. -/
def replaceAll (name repl s : List Char) : List Char :=
  replaceAllGo name repl 0 s

/-- `str::find` for a string pattern: index of the first occurrence. -/
def findSub (pat : List Char) (s : List Char) : Option Nat :=
  firstIdx (fun t => decide (t.take pat.length = pat)) s

/-- `str::find` for a single character. -/
def findChar (c : Char) (s : List Char) : Option Nat :=
  firstIdx (fun t => decide (t.take 1 = [c])) s

/-- Worker for `replaceSub`, same skip convention as `replaceAllGo`. -/
def replaceSubGo (pat repl : List Char) : Nat → List Char → List Char
  | _ + 1, [] => []
  | k + 1, _ :: cs => replaceSubGo pat repl k cs
  | 0, [] => []
  | 0, c :: cs =>
    if (c :: cs).take pat.length = pat then
      repl ++ replaceSubGo pat repl (pat.length - 1) cs
    else c :: replaceSubGo pat repl 0 cs

/-- `str::replace`: replace every (leftmost, non-overlapping) occurrence
of `pat` in `s` by `repl`.  (Rust replaces all occurrences.) -/
def replaceSub (pat repl s : List Char) : List Char :=
  replaceSubGo pat repl 0 s

def svgOpen : List Char := "<svg".data

def hName : List Char := "height".data

def wName : List Char := "width".data

def widthLit : List Char := "width=\"100%\"".data

def noStartMsg : List Char := "No SVG start found".data

def noEndMsg : List Char := "No SVG end found".data

/-- `HEIGHT_RE.replace_all(tag, "")` — remove every height attribute
pattern occurrence. -/
def removeHeights (s : List Char) : List Char := replaceAll hName [] s

/-- `WIDTH_RE.replace_all(tag, "width=\"100%\"")`. -/
def replaceWidths (s : List Char) : List Char := replaceAll wName widthLit s

/-- The rewriting applied to the tag span by `svg_size_full_width`:
height removal first, then width replacement. -/
def rewriteTag (tag : List Char) : List Char := replaceWidths (removeHeights tag)

/-- `svg_size_full_width` from src/src/main.rs, lines 46–65. -/
def svg_size_full_width (svg_content : List Char) : Except (List Char) (List Char) :=
  match findSub svgOpen svg_content with
  | none => .error noStartMsg
  | some svg_start =>
    match findChar '>' (svg_content.drop svg_start) with
    | none => .error noEndMsg
    | some svg_end =>
      let svg_tag_line := (svg_content.drop svg_start).take (svg_end + 1)
      let new_svg_tag_line := rewriteTag svg_tag_line
      .ok (replaceSub svg_tag_line new_svg_tag_line svg_content)

/-- The root `<svg ...>` opening tag span of a document, as located by
`svg_size_full_width` ([] when it would fail). -/
def tagSpan (s : List Char) : List Char :=
  match findSub svgOpen s with
  | none => []
  | some i =>
    match findChar '>' (s.drop i) with
    | none => []
    | some e => (s.drop i).take (e + 1)

/-- Page-name normalization of `render_svg` (line 80):
`page.into_inner().to_lowercase().replace(':', "/")`.  `to_lowercase`
is modelled on its ASCII behaviour (`Char.toLower`). -/
def normalizePage (page : List Char) : List Char :=
  (page.map Char.toLower).map fun c => if c = ':' then '/' else c

/-- `format!("{}.svg", page)` (line 81). -/
def svgFileName (page : List Char) : List Char :=
  normalizePage page ++ ".svg".data

/-- `PathBuf::join` (line 82) on Unix paths: an absolute argument
(leading '/') replaces the base entirely; otherwise the argument is
appended to the base, inserting a separator exactly when the base is
nonempty and does not already end in one. -/
def pathJoin (root rel : List Char) : List Char :=
  if rel.head? = some '/' then rel
  else if root = [] then rel
  else if root.getLast? = some '/' then root ++ rel
  else root ++ '/' :: rel

/-- The full lookup path derived by `render_svg` from a URL segment. -/
def lookupPath (root page : List Char) : List Char :=
  pathJoin root (svgFileName page)

/-- An HTTP response as built by the handlers: status code, body, and
content type when one is set. -/
structure Response where
  status : Nat
  body : List Char
  contentType : Option (List Char)
deriving DecidableEq, Repr

/-- The reasons `std::fs::read_to_string` can fail (file missing,
unreadable, or not valid UTF-8).  `render_svg` never inspects the
reason. -/
inductive FsError where
  | notFound
  | unreadable
  | invalidText
deriving DecidableEq, Repr

def failedLoadMsg : List Char := "Failed to load SVG".data

def templateErrMsg : List Char := "Template rendering error".data

/-- `render_svg` from src/src/main.rs, lines 74–116.  The filesystem and
the Handlebars engine are the handler's collaborators: `fs` maps a path
to file contents or a read error, `render` maps the template data
(title, svg_content) to the rendered page or a template error.  The
template name is fixed at "layout" in the source, so the engine is
modelled as a function of the data alone. -/
def render_svg (fs : List Char → Except FsError (List Char))
    (render : List Char → List Char → Except (List Char) (List Char))
    (root : List Char) (page0 : List Char) : Response :=
  let page := normalizePage page0
  let full_svg_path := pathJoin root (page ++ ".svg".data)
  match fs full_svg_path with
  | .error _ => ⟨500, failedLoadMsg, none⟩
  | .ok content =>
    match svg_size_full_width content with
    | .error e => ⟨500, e, none⟩
    | .ok content' =>
      match render page content' with
      | .ok rendered => ⟨200, rendered, some "text/html; charset=utf-8".data⟩
      | .error _ => ⟨500, templateErrMsg, none⟩

/-- A redirect response: `web::redirect(from, to).temporary()` is a
307 Temporary Redirect with the given Location target and no body. -/
structure RedirectResponse where
  status : Nat
  location : List Char
  body : Option (List Char)
deriving DecidableEq, Repr

/-- `home_redirect` from src/src/main.rs, lines 67–72. -/
def home_redirect (redirect_to : List Char) : RedirectResponse :=
  ⟨307, redirect_to, none⟩

/-! ## Basic facts about the embedded operations -/

theorem svg_error_msgs {s e : List Char} (h : svg_size_full_width s = .error e) :
    e = noStartMsg ∨ e = noEndMsg := by
  unfold svg_size_full_width at h
  split at h
  · exact Or.inl (by cases h; rfl)
  · split at h
    · exact Or.inr (by cases h; rfl)
    · exact absurd h (by simp)

theorem svg_ok_eq {s : List Char} {i e : Nat}
    (hf : findSub svgOpen s = some i) (hc : findChar '>' (s.drop i) = some e) :
    svg_size_full_width s
      = .ok (replaceSub ((s.drop i).take (e + 1)) (rewriteTag ((s.drop i).take (e + 1))) s) := by
  simp only [svg_size_full_width, hf, hc]

/-! ## C5, C8, C9: page resolution and root redirect -/

/-- C5: the lookup path is derived by lowercasing the URL segment,
replacing every colon with a path separator, appending ".svg" and
`PathBuf::join`-ing to the asset root; the normalization is
character-wise (no character is dropped or added — no other
sanitization).  Whenever the derived file name is relative and the root
is an ordinary directory path (nonempty, no trailing separator), the
result is the file name under the root; in particular "/assets" with
"Icons:Arrow" resolves to "/assets/icons/arrow.svg".  A segment whose
normalization starts with '/' (a leading ':') yields an absolute file
name, which `PathBuf::join` lets replace the root — no other
sanitization is performed. -/
theorem C5_lookup_path (root page : List Char) :
    lookupPath root page
      = pathJoin root ((page.map Char.toLower).map (fun c => if c = ':' then '/' else c)
          ++ ".svg".data)
    ∧ (normalizePage page).length = page.length
    ∧ ((normalizePage page).head? ≠ some '/' → root ≠ [] → root.getLast? ≠ some '/' →
        lookupPath root page = root ++ '/' :: (normalizePage page ++ ".svg".data))
    ∧ lookupPath "/assets".data "Icons:Arrow".data = "/assets/icons/arrow.svg".data
    ∧ (∀ r : List Char, lookupPath r ":etc:passwd".data = "/etc/passwd.svg".data) := by
  refine ⟨rfl, by simp [normalizePage], ?_, rfl, ?_⟩
  · intro hhead hroot hlast
    unfold lookupPath pathJoin svgFileName
    rw [if_neg ?hrel, if_neg hroot, if_neg hlast]
    case hrel =>
      intro habs
      cases hnp : normalizePage page with
      | nil =>
        rw [hnp] at habs
        exact absurd habs (by decide)
      | cons c cs =>
        rw [hnp] at habs
        simp only [List.cons_append, List.head?_cons, Option.some.injEq] at habs
        exact hhead (by rw [hnp]; simp [habs])
  · intro r
    unfold lookupPath pathJoin
    rw [if_pos (show (svgFileName ":etc:passwd".data).head? = some '/' from rfl)]
    rfl

/-- C5, witness. -/
theorem C5_lookup_path_witness :
    lookupPath "/assets".data "Icons:Arrow".data
      = "/assets".data ++ '/' :: (normalizePage "Icons:Arrow".data ++ ".svg".data) :=
  (C5_lookup_path "/assets".data "Icons:Arrow".data).2.2.1
    (by decide) (by decide) (by decide)

/-- C8: the root handler returns a (temporary) redirect whose target is
exactly the configured value, with no body; in particular with target
"/home" the redirect target is exactly "/home".  The handler is a total
function: it never fails. -/
theorem C8_root_redirect (target : List Char) :
    home_redirect target = ⟨307, target, none⟩
    ∧ (home_redirect "/home".data).location = "/home".data
    ∧ (home_redirect "/home".data).body = none :=
  ⟨rfl, rfl, rfl⟩

/-- C9: the normalized page name never contains a literal colon. -/
theorem C9_no_colon (page : List Char) : ':' ∉ normalizePage page := by
  intro h
  rw [normalizePage] at h
  rcases List.mem_map.mp h with ⟨c, _, hc⟩
  by_cases h' : c = ':'
  · rw [if_pos h'] at hc
    exact absurd hc (by decide)
  · rw [if_neg h'] at hc
    exact h' hc

/-! ## C6: failure condition of the rewriter -/

/-- C6: `svg_size_full_width` fails exactly when the input has no
occurrence of "<svg" (case-sensitive), or no '>' occurs from the first
such occurrence on; in every other case it returns successfully. -/
theorem C6_malformed_iff (s : List Char) :
    (∃ e, svg_size_full_width s = .error e)
      ↔ (findSub svgOpen s = none
         ∨ ∃ i, findSub svgOpen s = some i ∧ findChar '>' (s.drop i) = none) := by
  constructor
  · rintro ⟨e, he⟩
    unfold svg_size_full_width at he
    split at he
    · exact Or.inl (by assumption)
    · split at he
      · rename_i i hf _ hc
        exact Or.inr ⟨i, hf, hc⟩
      · exact absurd he (by simp)
  · rintro (hf | ⟨i, hf, hc⟩)
    · exact ⟨noStartMsg, by simp only [svg_size_full_width, hf]⟩
    · exact ⟨noEndMsg, by simp only [svg_size_full_width, hf, hc]⟩

/-! ## C3: page-route failure responses -/

/-- C3 counterexample: when the SVG file loads but is malformed, the 500
body is exactly the rewriter's internal error message (the same string
that is logged), and it differs between the two malformed cases — the
failure body is not one uniform generic message free of internal error
text. -/
theorem C3_counterexample :
    (render_svg (fun _ => .ok "hello".data) (fun _ svg => .ok svg)
        "/assets".data "home".data).status = 500
    ∧ (render_svg (fun _ => .ok "hello".data) (fun _ svg => .ok svg)
        "/assets".data "home".data).body = noStartMsg
    ∧ svg_size_full_width "hello".data = .error noStartMsg
    ∧ (render_svg (fun _ => .ok "<svg".data) (fun _ svg => .ok svg)
        "/assets".data "home".data).body = noEndMsg
    ∧ noStartMsg ≠ noEndMsg :=
  ⟨rfl, rfl, rfl, rfl, by decide⟩

/-- C3 (amended): every page-route response is a 200 or a 500; a 500
body is one of four fixed strings — "Failed to load SVG" (file read
failure, regardless of the sub-reason), "No SVG start found" or
"No SVG end found" (malformed SVG: the rewriter's own error message),
or "Template rendering error" — none of which mentions the filesystem
path; the file-read failure body does not distinguish whether the file
was missing, unreadable, or invalid text. -/
theorem C3_amended (fs : List Char → Except FsError (List Char))
    (render : List Char → List Char → Except (List Char) (List Char))
    (root page : List Char) :
    ((render_svg fs render root page).status = 200
      ∨ (render_svg fs render root page).status = 500)
    ∧ ((render_svg fs render root page).status = 500 →
        (render_svg fs render root page).body = failedLoadMsg
        ∨ (render_svg fs render root page).body = noStartMsg
        ∨ (render_svg fs render root page).body = noEndMsg
        ∨ (render_svg fs render root page).body = templateErrMsg)
    ∧ (∀ r r' : FsError,
        render_svg (fun _ => .error r) render root page
          = render_svg (fun _ => .error r') render root page) := by
  refine ⟨?_, ?_, fun r r' => rfl⟩
  all_goals
    unfold render_svg
    dsimp only
    split
    · simp
    · split
      · rename_i he
        rcases svg_error_msgs he with h | h <;> simp [h]
      · split <;> simp

/-- C3 amended, witness: instantiating the theorem at a failing read. -/
theorem C3_amended_witness :
    (render_svg (fun _ => .error .notFound) (fun _ svg => .ok svg)
        "/assets".data "home".data).body = failedLoadMsg
    ∨ (render_svg (fun _ => .error .notFound) (fun _ svg => .ok svg)
        "/assets".data "home".data).body = noStartMsg
    ∨ (render_svg (fun _ => .error .notFound) (fun _ svg => .ok svg)
        "/assets".data "home".data).body = noEndMsg
    ∨ (render_svg (fun _ => .error .notFound) (fun _ svg => .ok svg)
        "/assets".data "home".data).body = templateErrMsg :=
  (C3_amended (fun _ => .error .notFound) (fun _ svg => .ok svg)
    "/assets".data "home".data).2.1 (by rfl)

/-! ## C1, C2, C4, C7: concrete behaviour of the rewriter -/

/-- C1 counterexample: the input tag span contains occurrences of both
attribute patterns, the rewrite succeeds, but removing the only height
match glues `heig` and `ht="b"` into a fresh `height="b"`: the output's
tag span still contains a height attribute pattern occurrence. -/
theorem C1_counterexample :
    hasAttr hName (tagSpan "<svg heigheight=\"a\"ht=\"b\" width=\"W\">".data) = true
    ∧ hasAttr wName (tagSpan "<svg heigheight=\"a\"ht=\"b\" width=\"W\">".data) = true
    ∧ svg_size_full_width "<svg heigheight=\"a\"ht=\"b\" width=\"W\">".data
        = .ok "<svg height=\"b\" width=\"100%\">".data
    ∧ hasAttr hName (tagSpan "<svg height=\"b\" width=\"100%\">".data) = true :=
  ⟨rfl, rfl, rfl, rfl⟩

/-- replaceFirstSub — Modelled from the spec: "Replace the first textual
occurrence of the original tag span inside the whole document with the
rewritten tag span".  Comparison definition for C2; the source instead
calls `str::replace`, which replaces every occurrence. -/
def replaceFirstSub (pat repl s : List Char) : List Char :=
  match findSub pat s with
  | none => s
  | some i => s.take i ++ repl ++ s.drop (i + pat.length)

/-- C2 counterexample: a document in which the exact tag-span text occurs
twice; `svg_size_full_width` rewrites both occurrences, so its output is
not the input with only the first occurrence replaced. -/
theorem C2_counterexample :
    svg_size_full_width "<svg width=\"a\">x<svg width=\"a\">".data
      = .ok "<svg width=\"100%\">x<svg width=\"100%\">".data
    ∧ "<svg width=\"100%\">x<svg width=\"100%\">".data
      ≠ replaceFirstSub (tagSpan "<svg width=\"a\">x<svg width=\"a\">".data)
          (rewriteTag (tagSpan "<svg width=\"a\">x<svg width=\"a\">".data))
          "<svg width=\"a\">x<svg width=\"a\">".data :=
  ⟨rfl, by decide⟩

/-- C4 counterexample: the rewrite succeeds on this input and succeeds
again on its own output, but the two results differ (the height match
re-formed by the first removal is removed by the second pass). -/
theorem C4_counterexample :
    svg_size_full_width "<svg heigheight=\"a\"ht=\"b\">".data
      = .ok "<svg height=\"b\">".data
    ∧ svg_size_full_width "<svg height=\"b\">".data = .ok "<svg >".data
    ∧ "<svg >".data ≠ "<svg height=\"b\">".data :=
  ⟨rfl, rfl, by decide⟩

/-- C7 counterexample: the input tag span contains no width pattern
occurrence, yet removing `height="x"` glues `wi` and `dth="a"` into
`width="a"`, which the width pass then replaces: the output tag span
does contain `width="100%"`. -/
theorem C7_counterexample :
    hasAttr wName (tagSpan "<svg wiheight=\"x\"dth=\"a\">".data) = false
    ∧ svg_size_full_width "<svg wiheight=\"x\"dth=\"a\">".data
        = .ok "<svg width=\"100%\">".data
    ∧ hasAttr wName (tagSpan "<svg width=\"100%\">".data) = true :=
  ⟨rfl, rfl, rfl⟩

/-- C2 (amended): whenever the rewriter succeeds, its output is the
input with EVERY textual occurrence of the original tag span replaced by
the rewritten tag span (`str::replace` replaces all occurrences, not
only the first); on the two-occurrence document both tags are rewritten. -/
theorem C2_amended (s : List Char) (i e : Nat)
    (hf : findSub svgOpen s = some i) (hc : findChar '>' (s.drop i) = some e) :
    svg_size_full_width s
      = .ok (replaceSub ((s.drop i).take (e + 1)) (rewriteTag ((s.drop i).take (e + 1))) s)
    ∧ svg_size_full_width "<svg width=\"a\">x<svg width=\"a\">".data
        = .ok "<svg width=\"100%\">x<svg width=\"100%\">".data :=
  ⟨svg_ok_eq hf hc, rfl⟩

/-- C2 amended, witness. -/
theorem C2_amended_witness :
    svg_size_full_width "<svg width=\"a\">x".data
      = .ok (replaceSub (("<svg width=\"a\">x".data.drop 0).take (14 + 1))
          (rewriteTag (("<svg width=\"a\">x".data.drop 0).take (14 + 1)))
          "<svg width=\"a\">x".data) :=
  (C2_amended "<svg width=\"a\">x".data 0 14 (by rfl) (by rfl)).1

/-! ## Characterizations of the search functions -/

theorem firstIdx_eq_some_iff {Q : List Char → Bool} {s : List Char} {i : Nat} :
    firstIdx Q s = some i
      ↔ i < s.length ∧ Q (s.drop i) = true ∧ ∀ j < i, Q (s.drop j) = false := by
  induction s generalizing i with
  | nil => simp [firstIdx]
  | cons a as ih =>
    unfold firstIdx
    by_cases hq : Q (a :: as)
    · rw [if_pos hq]
      constructor
      · intro h
        cases h
        exact ⟨by simp, by simpa using hq, fun j hj => absurd hj (by omega)⟩
      · rintro ⟨_, _, hall⟩
        cases i with
        | zero => rfl
        | succ i' =>
          have := hall 0 (by omega)
          simp only [List.drop_zero] at this
          rw [this] at hq
          exact absurd hq (by simp)
    · rw [if_neg hq]
      constructor
      · intro h
        rcases Option.map_eq_some'.mp h with ⟨i', hi', rfl⟩
        rcases ih.mp hi' with ⟨h1, h2, h3⟩
        refine ⟨by simp; omega, by simpa using h2, ?_⟩
        intro j hj
        cases j with
        | zero => simpa using (Bool.eq_false_iff.mpr hq)
        | succ j' => simpa using h3 j' (by omega)
      · rintro ⟨h1, h2, h3⟩
        cases i with
        | zero =>
          simp only [List.drop_zero] at h2
          exact absurd h2 hq
        | succ i' =>
          have : firstIdx Q as = some i' := by
            refine ih.mpr ⟨by simp at h1; omega, by simpa using h2, ?_⟩
            intro j hj
            simpa using h3 (j + 1) (by omega)
          simp [this]

theorem firstIdx_eq_none_iff {Q : List Char → Bool} {s : List Char} :
    firstIdx Q s = none ↔ ∀ j < s.length, Q (s.drop j) = false := by
  induction s with
  | nil => simp [firstIdx]
  | cons a as ih =>
    unfold firstIdx
    by_cases hq : Q (a :: as)
    · rw [if_pos hq]
      constructor
      · intro h
        exact absurd h (by simp)
      · intro hall
        have := hall 0 (by simp)
        simp only [List.drop_zero] at this
        rw [this] at hq
        exact absurd hq (by simp)
    · rw [if_neg hq]
      constructor
      · intro h j hj
        cases j with
        | zero => simpa using (Bool.eq_false_iff.mpr hq)
        | succ j' =>
          have := ih.mp (by simpa using h)
          simpa using this j' (by simp at hj; omega)
      · intro hall
        have : firstIdx Q as = none := by
          refine ih.mpr fun j hj => ?_
          simpa using hall (j + 1) (by simp; omega)
        simp [this]

theorem findSub_eq_some_iff {pat s : List Char} {i : Nat} :
    findSub pat s = some i
      ↔ i < s.length ∧ (s.drop i).take pat.length = pat
        ∧ ∀ j < i, (s.drop j).take pat.length ≠ pat := by
  unfold findSub
  rw [firstIdx_eq_some_iff]
  simp

theorem findChar_eq_some_iff {c : Char} {s : List Char} {e : Nat} :
    findChar c s = some e
      ↔ e < s.length ∧ (s.drop e).take 1 = [c] ∧ ∀ j < e, (s.drop j).take 1 ≠ [c] := by
  unfold findChar
  rw [firstIdx_eq_some_iff]
  simp

theorem findAttr_eq_some_iff {name s : List Char} {p : Nat} :
    findAttr name s = some p
      ↔ p < s.length ∧ (attrMatch name (s.drop p)).isSome = true
        ∧ ∀ j < p, attrMatch name (s.drop j) = none := by
  unfold findAttr
  rw [firstIdx_eq_some_iff]
  constructor
  · rintro ⟨h1, h2, h3⟩
    refine ⟨h1, h2, fun j hj => ?_⟩
    have := h3 j hj
    simp only [Bool.not_eq_true] at this
    exact Option.not_isSome_iff_eq_none.mp (by simp [this])
  · rintro ⟨h1, h2, h3⟩
    exact ⟨h1, h2, fun j hj => by simp [h3 j hj]⟩

/-! ## Structure of pattern matches -/

theorem scanValue_eq_some_iff {s : List Char} {k : Nat} :
    scanValue s = some k ↔ ∃ v r, s = v ++ '"' :: r ∧ '"' ∉ v ∧ k = v.length + 1 := by
  induction s generalizing k with
  | nil =>
    simp only [scanValue, false_iff, not_exists]
    · constructor
      · intro h; exact absurd h (by simp)
      · rintro ⟨v, r, hs, _, _⟩
        exact absurd hs (by simp)
  | cons c cs ih =>
    unfold scanValue
    by_cases hc : c = '"'
    · subst hc
      rw [if_pos rfl]
      constructor
      · intro h
        cases h
        exact ⟨[], cs, rfl, by simp, rfl⟩
      · rintro ⟨v, r, hs, hv, hk⟩
        cases v with
        | nil =>
          simp only [List.nil_append] at hs
          simp [hk]
        | cons b v' =>
          injection hs with h1 _
          exact absurd (by rw [h1]; exact List.mem_cons_self b v') hv
    · rw [if_neg hc]
      constructor
      · intro h
        rcases Option.map_eq_some'.mp h with ⟨k', hk', rfl⟩
        rcases ih.mp hk' with ⟨v, r, hs, hv, hk⟩
        refine ⟨c :: v, r, by rw [hs]; rfl, ?_, by simp [hk]⟩
        intro hmem
        rcases List.mem_cons.mp hmem with h' | h'
        · exact hc h'.symm
        · exact hv h'
      · rintro ⟨v, r, hs, hv, hk⟩
        cases v with
        | nil =>
          injection hs with h1 _
          exact absurd h1 hc
        | cons b v' =>
          injection hs with h1 h2
          subst h1
          have hv' : '"' ∉ v' := fun h => hv (List.mem_cons_of_mem _ h)
          have : scanValue cs = some (v'.length + 1) := ih.mpr ⟨v', r, h2, hv', rfl⟩
          rw [this]
          simp only [Option.map_some', Option.some.injEq]
          simp at hk
          omega

theorem scanValue_eq_none_iff {s : List Char} : scanValue s = none ↔ '"' ∉ s := by
  induction s with
  | nil => simp [scanValue]
  | cons c cs ih =>
    unfold scanValue
    by_cases hc : c = '"'
    · subst hc
      simp
    · rw [if_neg hc]
      simp only [Option.map_eq_none', List.mem_cons, not_or]
      rw [ih]
      constructor
      · intro h; exact ⟨fun h' => hc h'.symm, h⟩
      · intro h; exact h.2

theorem attrMatch_nil {name : List Char} (h : name ≠ []) : attrMatch name [] = none := by
  unfold attrMatch
  rw [if_neg (fun heq => h (by simpa using heq.symm))]

theorem drop_length_takeWhile (p : Char → Bool) (l : List Char) :
    l.drop (l.takeWhile p).length = l.dropWhile p := by
  induction l with
  | nil => rfl
  | cons a as ih =>
    by_cases h : p a
    · simp [List.takeWhile_cons_of_pos h, List.dropWhile_cons_of_pos h, ih]
    · simp [List.takeWhile_cons_of_neg h, List.dropWhile_cons_of_neg h]

theorem attrMatch_eq_some_iff {name s : List Char} {n : Nat} :
    attrMatch name s = some n
      ↔ ∃ sp₁ sp₂ v r,
          s = name ++ (sp₁ ++ '=' :: (sp₂ ++ '"' :: (v ++ '"' :: r)))
          ∧ (∀ c ∈ sp₁, isWs c) ∧ (∀ c ∈ sp₂, isWs c) ∧ '"' ∉ v
          ∧ n = name.length + sp₁.length + sp₂.length + v.length + 3 := by
  constructor
  · intro h
    unfold attrMatch at h
    by_cases htake : s.take name.length = name
    · rw [if_pos htake] at h
      dsimp only at h
      rw [drop_length_takeWhile] at h
      split at h
      · rename_i r₂ heq
        rw [drop_length_takeWhile] at h
        split at h
        · rename_i r₃ heq2
          split at h
          · rename_i val heq3
            rcases scanValue_eq_some_iff.mp heq3 with ⟨v, r, hr₃, hv, hval⟩
            injection h with hn
            refine ⟨(s.drop name.length).takeWhile isWs, r₂.takeWhile isWs, v, r, ?_, ?_, ?_, hv, ?_⟩
            · conv_lhs => rw [← List.take_append_drop name.length s, htake]
              congr 1
              conv_lhs => rw [← List.takeWhile_append_dropWhile isWs (s.drop name.length), heq]
              congr 1
              conv_lhs => rw [← List.takeWhile_append_dropWhile isWs r₂, heq2]
              rw [hr₃]
            · exact fun c hc => List.mem_takeWhile_imp hc
            · exact fun c hc => List.mem_takeWhile_imp hc
            · omega
          · exact absurd h (by simp)
        · exact absurd h (by simp)
      · exact absurd h (by simp)
    · rw [if_neg htake] at h
      exact absurd h (by simp)
  · rintro ⟨sp₁, sp₂, v, r, hs, hw₁, hw₂, hv, hn⟩
    have hne : isWs '=' = false := by decide
    have hnq : isWs '"' = false := by decide
    have htake : s.take name.length = name := by
      rw [hs]; exact List.take_left name _
    have hdrop : s.drop name.length = sp₁ ++ '=' :: (sp₂ ++ '"' :: (v ++ '"' :: r)) := by
      rw [hs]; exact List.drop_left name _
    have hscan : scanValue (v ++ '"' :: r) = some (v.length + 1) :=
      scanValue_eq_some_iff.mpr ⟨v, r, rfl, hv, rfl⟩
    have hsp₁ : ((sp₁ ++ '=' :: (sp₂ ++ '"' :: (v ++ '"' :: r))).takeWhile isWs).length
        = sp₁.length := by
      rw [List.takeWhile_append_of_pos hw₁, List.takeWhile_cons_of_neg (by simp [hne])]
      simp
    have hsp₂ : ((sp₂ ++ '"' :: (v ++ '"' :: r)).takeWhile isWs).length = sp₂.length := by
      rw [List.takeWhile_append_of_pos hw₂, List.takeWhile_cons_of_neg (by simp [hnq])]
      simp
    unfold attrMatch
    rw [if_pos htake]
    dsimp only
    rw [drop_length_takeWhile, hdrop,
        List.dropWhile_append_of_pos hw₁, List.dropWhile_cons_of_neg (by simp [hne])]
    split
    · rename_i r₂ heq
      injection heq with _ heq2
      subst heq2
      rw [drop_length_takeWhile,
          List.dropWhile_append_of_pos hw₂, List.dropWhile_cons_of_neg (by simp [hnq])]
      split
      · rename_i r₃ heq3
        injection heq3 with _ heq4
        subst heq4
        split
        · rename_i val heqv
          rw [hscan] at heqv
          injection heqv with hval
          rw [hsp₁, hsp₂]
          congr 1
          omega
        · rename_i heqv
          rw [hscan] at heqv
          exact absurd heqv (by simp)
      · rename_i hno
        exact absurd rfl (hno _)
    · rename_i hno
      exact absurd rfl (hno _)

theorem attrMatch_pos {name s : List Char} {n : Nat} (h : attrMatch name s = some n) :
    name.length + 3 ≤ n := by
  rcases attrMatch_eq_some_iff.mp h with ⟨sp₁, sp₂, v, r, _, _, _, _, hn⟩
  omega

theorem attrMatch_le_length {name s : List Char} {n : Nat} (h : attrMatch name s = some n) :
    n ≤ s.length := by
  rcases attrMatch_eq_some_iff.mp h with ⟨sp₁, sp₂, v, r, hs, _, _, _, hn⟩
  rw [hs]
  simp [List.length_append]
  omega

theorem attrMatch_cons_none {c₀ : Char} {name' : List Char} {c : Char} (hc : c ≠ c₀)
    (cs : List Char) : attrMatch (c₀ :: name') (c :: cs) = none := by
  unfold attrMatch
  split
  · rename_i htake
    rw [List.length_cons, List.take_succ_cons] at htake
    injection htake with h1 _
    exact absurd h1 hc
  · rfl

/-! ## Unfolding lemmas for the replacement workers -/

theorem replaceAllGo_skip (name repl : List Char) (s : List Char) :
    ∀ k : Nat, replaceAllGo name repl k s = replaceAllGo name repl 0 (s.drop k) := by
  induction s with
  | nil => intro k; cases k <;> rfl
  | cons c cs ih =>
    intro k
    cases k with
    | zero => rfl
    | succ k' =>
      have h1 : replaceAllGo name repl (k' + 1) (c :: cs) = replaceAllGo name repl k' cs := rfl
      rw [h1, ih k']
      rfl

theorem replaceAll_cons (name repl : List Char) (c : Char) (cs : List Char) :
    replaceAll name repl (c :: cs)
      = match attrMatch name (c :: cs) with
        | some n => repl ++ replaceAll name repl (cs.drop (n - 1))
        | none => c :: replaceAll name repl cs := by
  unfold replaceAll
  have h0 : replaceAllGo name repl 0 (c :: cs)
      = match attrMatch name (c :: cs) with
        | some n => repl ++ replaceAllGo name repl (n - 1) cs
        | none => c :: replaceAllGo name repl 0 cs := rfl
  rw [h0]
  cases attrMatch name (c :: cs) with
  | some n =>
    simp only
    rw [replaceAllGo_skip]
  | none => rfl

theorem replaceSubGo_skip (pat repl : List Char) (s : List Char) :
    ∀ k : Nat, replaceSubGo pat repl k s = replaceSubGo pat repl 0 (s.drop k) := by
  induction s with
  | nil => intro k; cases k <;> rfl
  | cons c cs ih =>
    intro k
    cases k with
    | zero => rfl
    | succ k' =>
      have h1 : replaceSubGo pat repl (k' + 1) (c :: cs) = replaceSubGo pat repl k' cs := rfl
      rw [h1, ih k']
      rfl

theorem replaceSub_cons (pat repl : List Char) (c : Char) (cs : List Char) :
    replaceSub pat repl (c :: cs)
      = if (c :: cs).take pat.length = pat then
          repl ++ replaceSub pat repl (cs.drop (pat.length - 1))
        else c :: replaceSub pat repl cs := by
  unfold replaceSub
  have h0 : replaceSubGo pat repl 0 (c :: cs)
      = if (c :: cs).take pat.length = pat then
          repl ++ replaceSubGo pat repl (pat.length - 1) cs
        else c :: replaceSubGo pat repl 0 cs := rfl
  rw [h0]
  by_cases h : (c :: cs).take pat.length = pat
  · rw [if_pos h, if_pos h, replaceSubGo_skip]
  · rw [if_neg h, if_neg h]

theorem replaceAll_id_of_no_match {name repl s : List Char}
    (h : ∀ q, attrMatch name (s.drop q) = none) :
    replaceAll name repl s = s := by
  induction s with
  | nil => rfl
  | cons c cs ih =>
    have h0 := h 0
    simp only [List.drop_zero] at h0
    rw [replaceAll_cons, h0]
    have h' : ∀ q, attrMatch name (cs.drop q) = none := fun q => by
      have := h (q + 1)
      simpa using this
    rw [ih h']

theorem replaceAll_first_match {name repl : List Char} :
    ∀ {s : List Char} {p n : Nat},
      (∀ j < p, attrMatch name (s.drop j) = none) →
      attrMatch name (s.drop p) = some n →
      replaceAll name repl s = s.take p ++ repl ++ replaceAll name repl (s.drop (p + n)) := by
  intro s
  induction s with
  | nil =>
    intro p n _ hm
    rw [List.drop_nil] at hm
    rcases attrMatch_eq_some_iff.mp hm with ⟨sp₁, sp₂, v, r, hs, _⟩
    exact absurd hs (by simp)
  | cons c cs ih =>
    intro p n hb hm
    cases p with
    | zero =>
      simp only [List.drop_zero] at hm
      have hn1 : 1 ≤ n := by have := attrMatch_pos hm; omega
      rw [replaceAll_cons, hm]
      simp only [List.take_zero, List.nil_append, Nat.zero_add]
      cases n with
      | zero => omega
      | succ m =>
        rw [List.drop_succ_cons]
        simp
    | succ p' =>
      have h0 := hb 0 (by omega)
      simp only [List.drop_zero] at h0
      rw [replaceAll_cons, h0]
      have hb' : ∀ j < p', attrMatch name (cs.drop j) = none := fun j hj => by
        have := hb (j + 1) (by omega)
        simpa using this
      have hm' : attrMatch name (cs.drop p') = some n := by simpa using hm
      have harith : p' + 1 + n = (p' + n) + 1 := by omega
      rw [List.take_succ_cons, harith, List.drop_succ_cons, ih hb' hm']
      simp

theorem hasAttr_eq_false_iff {name s : List Char} (hne : name ≠ []) :
    hasAttr name s = false ↔ ∀ q, attrMatch name (s.drop q) = none := by
  unfold hasAttr
  constructor
  · intro h q
    have hnone : findAttr name s = none := by
      cases hf : findAttr name s with
      | none => rfl
      | some p => rw [hf] at h; exact absurd h (by simp)
    unfold findAttr at hnone
    have hforall := firstIdx_eq_none_iff.mp hnone
    by_cases hq : q < s.length
    · have h1 : (attrMatch name (s.drop q)).isSome = false := by simpa using hforall q hq
      exact Option.not_isSome_iff_eq_none.mp (by simp [h1])
    · rw [List.drop_eq_nil_of_le (by omega)]
      exact attrMatch_nil hne
  · intro h
    have hnone : findAttr name s = none := by
      unfold findAttr
      exact firstIdx_eq_none_iff.mpr fun j _ => by simp [h j]
    simp [hnone]

theorem hasAttr_drop_eq_false {name s : List Char} (hne : name ≠ []) (k : Nat)
    (h : hasAttr name s = false) : hasAttr name (s.drop k) = false := by
  rw [hasAttr_eq_false_iff hne] at h ⊢
  intro q
  rw [List.drop_drop]
  exact h (k + q)

theorem tagSpan_eq {s : List Char} {i e : Nat}
    (hf : findSub svgOpen s = some i) (hc : findChar '>' (s.drop i) = some e) :
    tagSpan s = (s.drop i).take (e + 1) := by
  simp only [tagSpan, hf, hc]

theorem exists_first_quote {z : List Char} (hz : '"' ∈ z) :
    ∃ a b, z = a ++ '"' :: b ∧ '"' ∉ a := by
  cases hq : scanValue z with
  | none =>
    rw [scanValue_eq_none_iff] at hq
    exact absurd hz hq
  | some k =>
    rcases scanValue_eq_some_iff.mp hq with ⟨v, r, hzv, hv, _⟩
    exact ⟨v, r, hzv, hv⟩

theorem replaceAll_contains_repl {name repl s : List Char} {p : Nat}
    (hfa : findAttr name s = some p) :
    ∃ a b, replaceAll name repl s = a ++ repl ++ b := by
  rcases findAttr_eq_some_iff.mp hfa with ⟨_, hsome, hnone⟩
  rcases Option.isSome_iff_exists.mp hsome with ⟨n, hn⟩
  exact ⟨s.take p, replaceAll name repl (s.drop (p + n)), replaceAll_first_match hnone hn⟩

/-- C7 (amended): if the height-removed tag span contains no width
pattern occurrence (the height-removal step can itself create one by
gluing text around a removed match, so this is a genuine restriction of
the original claim), then the width pass changes nothing: the rewritten
tag span is exactly the height-removed tag span and contains no width
attribute — none is synthesized. -/
theorem C7_amended (s : List Char) (i e : Nat)
    (hf : findSub svgOpen s = some i) (hc : findChar '>' (s.drop i) = some e)
    (_hw : hasAttr wName (tagSpan s) = false)
    (hw' : hasAttr wName (removeHeights (tagSpan s)) = false) :
    rewriteTag (tagSpan s) = removeHeights (tagSpan s)
    ∧ hasAttr wName (rewriteTag (tagSpan s)) = false
    ∧ svg_size_full_width s = .ok (replaceSub (tagSpan s) (rewriteTag (tagSpan s)) s) := by
  have hq : ∀ q, attrMatch wName ((removeHeights (tagSpan s)).drop q) = none :=
    (hasAttr_eq_false_iff (by decide)).mp hw'
  have hkey : rewriteTag (tagSpan s) = removeHeights (tagSpan s) := by
    unfold rewriteTag replaceWidths
    exact replaceAll_id_of_no_match hq
  refine ⟨hkey, by rw [hkey]; exact hw', ?_⟩
  rw [tagSpan_eq hf hc]
  exact svg_ok_eq hf hc

/-- C7 amended, witness. -/
theorem C7_amended_witness :
    rewriteTag (tagSpan "<svg height=\"2\">x".data)
      = removeHeights (tagSpan "<svg height=\"2\">x".data)
    ∧ hasAttr wName (rewriteTag (tagSpan "<svg height=\"2\">x".data)) = false
    ∧ svg_size_full_width "<svg height=\"2\">x".data
        = .ok (replaceSub (tagSpan "<svg height=\"2\">x".data)
            (rewriteTag (tagSpan "<svg height=\"2\">x".data)) "<svg height=\"2\">x".data) :=
  C7_amended "<svg height=\"2\">x".data 0 15 rfl rfl rfl rfl

/-! ## The width pass cannot create a height match

`replaceAll wName widthLit` rewrites a string by substituting
`width="100%"` for width-pattern matches.  The next lemmas show that in
a string with no height-pattern match, this substitution cannot create
one.  The key step compares the height-pattern parse over a common
prefix `u` followed by `'w' :: …`: the parse either fails inside
`u ++ ['w']` (identically on both sides), or it is scanning a quoted
value, in which case it succeeds on both sides because both
continuations contain a closing quote. -/

theorem attrMatch_boundary_isSome {name : List Char} (hwname : 'w' ∉ name)
    (hwsp : isWs 'w' = false)
    {u z z' : List Char} (hz' : '"' ∈ z')
    (h : (attrMatch name (u ++ 'w' :: z)).isSome = true) :
    (attrMatch name (u ++ 'w' :: z')).isSome = true := by
  rcases Option.isSome_iff_exists.mp h with ⟨n, hn⟩
  rcases attrMatch_eq_some_iff.mp hn with ⟨sp₁, sp₂, v, r, heq, hw₁, hw₂, hv, _⟩
  have hMv : u ++ 'w' :: z = (name ++ sp₁ ++ '=' :: sp₂ ++ ['"']) ++ (v ++ '"' :: r) := by
    rw [heq]
    simp [List.append_assoc]
  set M : List Char := name ++ sp₁ ++ '=' :: sp₂ ++ ['"'] with hM
  have hwM : 'w' ∉ M := by
    intro hmem
    rw [hM] at hmem
    rcases List.mem_append.mp hmem with h1 | h1
    · rcases List.mem_append.mp h1 with h2 | h2
      · rcases List.mem_append.mp h2 with h3 | h3
        · exact hwname h3
        · exact absurd (hw₁ _ h3) (by rw [hwsp]; simp)
      · rcases List.mem_cons.mp h2 with h3 | h3
        · exact absurd h3 (by decide)
        · exact absurd (hw₂ _ h3) (by rw [hwsp]; simp)
    · simp only [List.mem_singleton] at h1
      exact absurd h1 (by decide)
  rcases Nat.lt_or_ge u.length M.length with hb | hb
  · -- the boundary character 'w' would lie inside the fixed part of the
    -- match, which contains no 'w': impossible
    exfalso
    have hdrop := congrArg (List.drop u.length) hMv
    rw [List.drop_left, List.drop_append_eq_append_drop] at hdrop
    cases hMd : M.drop u.length with
    | nil =>
      have := congrArg List.length hMd
      simp at this
      omega
    | cons m ms =>
      rw [hMd] at hdrop
      simp only [List.cons_append] at hdrop
      injection hdrop with h1 _
      have hmmem : m ∈ M.drop u.length := by
        rw [hMd]
        exact List.mem_cons_self m ms
      have hmM : m ∈ M := List.drop_subset _ _ hmmem
      rw [← h1] at hmM
      exact hwM hmM
  · -- the fixed part of the match lies inside u
    have htakeu : u.take M.length = M := by
      have h1 := congrArg (List.take M.length) hMv
      rw [List.take_left, List.take_append_eq_append_take,
          Nat.sub_eq_zero_of_le hb] at h1
      simpa using h1
    have hu : u = M ++ u.drop M.length := by
      conv_lhs => rw [← List.take_append_drop M.length u, htakeu]
    have hd1 : u.drop M.length ++ 'w' :: z = v ++ '"' :: r := by
      have h2 := congrArg (List.drop M.length) hMv
      rw [List.drop_left, List.drop_append_eq_append_drop,
          Nat.sub_eq_zero_of_le hb, List.drop_zero] at h2
      exact h2
    set u₁ : List Char := u.drop M.length with hu₁
    rcases Nat.lt_or_ge u₁.length v.length with hb2 | hb2
    · -- the boundary lies inside the quoted value: rebuild a match
      -- whose value ends at the first quote of z'
      have htaku₁ : u₁ = v.take u₁.length := by
        have h3 := congrArg (List.take u₁.length) hd1
        rw [List.take_left, List.take_append_eq_append_take,
            Nat.sub_eq_zero_of_le (Nat.le_of_lt hb2)] at h3
        simpa using h3
      have hqu₁ : '"' ∉ u₁ := fun hmem =>
        hv (List.take_subset _ _ (htaku₁ ▸ hmem))
      rcases exists_first_quote hz' with ⟨a, b', hz'eq, ha⟩
      refine Option.isSome_iff_exists.mpr
        ⟨name.length + sp₁.length + sp₂.length + (u₁ ++ 'w' :: a).length + 3,
          attrMatch_eq_some_iff.mpr ⟨sp₁, sp₂, u₁ ++ 'w' :: a, b', ?_, hw₁, hw₂, ?_, rfl⟩⟩
      · conv_lhs => rw [hu, hz'eq]
        rw [hM]
        simp [List.append_assoc]
      · intro hmem
        simp only [List.mem_append, List.mem_cons] at hmem
        rcases hmem with h' | h' | h'
        · exact hqu₁ h'
        · exact absurd h' (by decide)
        · exact ha h'
    · -- the whole original match lies inside u ++ ['w'] — in fact
      -- inside u, since its last character is '"', not 'w'
      rcases Nat.eq_or_lt_of_le hb2 with hb3 | hb3
      · -- u₁.length = v.length would place the closing quote at the
        -- boundary character 'w': impossible
        exfalso
        have h4 := congrArg (List.drop v.length) hd1
        rw [List.drop_append_eq_append_drop, List.drop_eq_nil_of_le (by omega),
            Nat.sub_eq_zero_of_le (by omega), List.drop_zero, List.nil_append,
            List.drop_left] at h4
        injection h4 with h5 _
        exact absurd h5 (by decide)
      · -- v.length < u₁.length: the closing quote is inside u
        have htakv : u₁.take v.length = v := by
          have h5 := congrArg (List.take v.length) hd1
          rw [List.take_left, List.take_append_eq_append_take,
              Nat.sub_eq_zero_of_le (Nat.le_of_lt hb3)] at h5
          simpa using h5
        have hd2 : u₁.drop v.length ++ 'w' :: z = '"' :: r := by
          have h6 := congrArg (List.drop v.length) hd1
          rw [List.drop_left, List.drop_append_eq_append_drop,
              Nat.sub_eq_zero_of_le (Nat.le_of_lt hb3), List.drop_zero] at h6
          exact h6
        cases hu₂ : u₁.drop v.length with
        | nil =>
          exfalso
          have := congrArg List.length hu₂
          simp at this
          omega
        | cons q u₂ =>
          rw [hu₂] at hd2
          simp only [List.cons_append] at hd2
          injection hd2 with h7 h8
          refine Option.isSome_iff_exists.mpr
            ⟨name.length + sp₁.length + sp₂.length + v.length + 3,
              attrMatch_eq_some_iff.mpr ⟨sp₁, sp₂, v, u₂ ++ 'w' :: z', ?_, hw₁, hw₂, hv, rfl⟩⟩
          conv_lhs => rw [hu]
          conv_lhs => rw [show u₁ = u₁.take v.length ++ u₁.drop v.length from
            (List.take_append_drop v.length u₁).symm, htakv, hu₂, h7]
          rw [hM]
          simp [List.append_assoc]

/-- No height-pattern match can start inside an inserted `width="100%"`
literal, whatever follows it. -/
theorem attrMatch_hName_widthLit_drop (j : Nat) (hj : j < widthLit.length) (y : List Char) :
    attrMatch hName (widthLit.drop j ++ y) = none := by
  have h12 : widthLit.length = 12 := rfl
  rw [h12] at hj
  interval_cases j
  · exact attrMatch_cons_none (by decide) _
  · exact attrMatch_cons_none (by decide) _
  · exact attrMatch_cons_none (by decide) _
  · exact attrMatch_cons_none (by decide) _
  · -- drop 4 = h="100%" : head matches 'h' but the literal's next
    -- characters destroy the "height" prefix
    unfold attrMatch
    split
    · rename_i htake
      exfalso
      rw [List.take_append_eq_append_take] at htake
      simp only [show widthLit.drop 4 = "h=\"100%\"".data from rfl] at htake
      exact absurd htake (by simp [hName])
    · rfl
  · exact attrMatch_cons_none (by decide) _
  · exact attrMatch_cons_none (by decide) _
  · exact attrMatch_cons_none (by decide) _
  · exact attrMatch_cons_none (by decide) _
  · exact attrMatch_cons_none (by decide) _
  · exact attrMatch_cons_none (by decide) _
  · exact attrMatch_cons_none (by decide) _

/-- The width pass preserves height-freeness: replacing width matches by
`width="100%"` in a string with no height-pattern occurrence yields a
string with no height-pattern occurrence. -/
theorem hasAttr_hName_replaceWidths_aux :
    ∀ (N : Nat) (s : List Char), s.length ≤ N →
      hasAttr hName s = false → hasAttr hName (replaceWidths s) = false := by
  intro N
  induction N with
  | zero =>
    intro s hs h
    have hnil : s = [] := List.length_eq_zero.mp (by omega)
    subst hnil
    exact h
  | succ N ih =>
    intro s hs h
    cases hfa : findAttr wName s with
    | none =>
      have hwfalse : hasAttr wName s = false := by simp [hasAttr, hfa]
      have hq := (hasAttr_eq_false_iff (by decide)).mp hwfalse
      unfold replaceWidths
      rw [replaceAll_id_of_no_match hq]
      exact h
    | some p =>
      rcases findAttr_eq_some_iff.mp hfa with ⟨hp, hsome, hnone⟩
      rcases Option.isSome_iff_exists.mp hsome with ⟨n, hn⟩
      have hd : replaceWidths s
          = s.take p ++ widthLit ++ replaceWidths (s.drop (p + n)) := by
        unfold replaceWidths
        exact replaceAll_first_match hnone hn
      have hwlen : wName.length = 5 := rfl
      have hn8 : wName.length + 3 ≤ n := attrMatch_pos hn
      have hx' : hasAttr hName (s.drop (p + n)) = false :=
        hasAttr_drop_eq_false (by decide) _ h
      have hWx' : hasAttr hName (replaceWidths (s.drop (p + n))) = false := by
        apply ih
        · have := List.length_drop (p + n) s
          omega
        · exact hx'
      rcases attrMatch_eq_some_iff.mp hn with ⟨sp₁, sp₂, v, r, hdec, _, _, _, _⟩
      have hzz : s.drop p
          = 'w' :: ("idth".data ++ (sp₁ ++ '=' :: (sp₂ ++ '"' :: (v ++ '"' :: r)))) := by
        rw [hdec]
        rfl
      have hqzz : '"' ∈ "idth".data ++ (sp₁ ++ '=' :: (sp₂ ++ '"' :: (v ++ '"' :: r))) := by
        simp
      have h12 : widthLit.length = 12 := rfl
      rw [hasAttr_eq_false_iff (by decide)] at h ⊢
      intro q
      rw [hd]
      have hlA : (s.take p).length = p := by
        rw [List.length_take]
        omega
      rcases Nat.lt_or_ge q p with hq | hq
      · -- before the replacement site: transfer along the boundary lemma
        have hout : (s.take p ++ widthLit ++ replaceWidths (s.drop (p + n))).drop q
            = (s.take p).drop q
              ++ 'w' :: ("idth=\"100%\"".data ++ replaceWidths (s.drop (p + n))) := by
          rw [List.append_assoc, List.drop_append_eq_append_drop, hlA,
              Nat.sub_eq_zero_of_le (by omega), List.drop_zero]
          rfl
        have hin : s.drop q = (s.take p).drop q ++ 'w' :: ("idth".data
            ++ (sp₁ ++ '=' :: (sp₂ ++ '"' :: (v ++ '"' :: r)))) := by
          conv_lhs => rw [show s = s.take p ++ s.drop p from (List.take_append_drop p s).symm]
          rw [List.drop_append_eq_append_drop, hlA, Nat.sub_eq_zero_of_le (by omega),
              List.drop_zero, hzz]
        rw [hout]
        by_contra hne
        have hsome' : (attrMatch hName ((s.take p).drop q
            ++ 'w' :: ("idth=\"100%\"".data ++ replaceWidths (s.drop (p + n))))).isSome
              = true := by
          cases hres : attrMatch hName ((s.take p).drop q
              ++ 'w' :: ("idth=\"100%\"".data ++ replaceWidths (s.drop (p + n)))) with
          | none => exact absurd hres hne
          | some k => simp
        have htrans := attrMatch_boundary_isSome (by decide) (by decide) hqzz hsome'
        have hzero := h q
        rw [hin] at hzero
        rw [hzero] at htrans
        exact absurd htrans (by simp)
      · rcases Nat.lt_or_ge q (p + 12) with hq2 | hq2
        · -- inside the inserted literal
          have hout : (s.take p ++ widthLit ++ replaceWidths (s.drop (p + n))).drop q
              = widthLit.drop (q - p) ++ replaceWidths (s.drop (p + n)) := by
            rw [List.append_assoc, List.drop_append_eq_append_drop, hlA,
                List.drop_eq_nil_of_le (by omega), List.nil_append,
                List.drop_append_eq_append_drop,
                show q - p - widthLit.length = 0 from by rw [h12]; omega,
                List.drop_zero]
          rw [hout]
          exact attrMatch_hName_widthLit_drop (q - p) (by rw [h12]; omega) _
        · -- beyond the inserted literal: use the induction hypothesis
          have hout : (s.take p ++ widthLit ++ replaceWidths (s.drop (p + n))).drop q
              = (replaceWidths (s.drop (p + n))).drop (q - p - 12) := by
            rw [List.append_assoc, List.drop_append_eq_append_drop, hlA,
                List.drop_eq_nil_of_le (by omega), List.nil_append,
                List.drop_append_eq_append_drop,
                List.drop_eq_nil_of_le (show widthLit.length ≤ q - p from by rw [h12]; omega),
                List.nil_append, h12]
          rw [hout]
          exact (hasAttr_eq_false_iff (by decide)).mp hWx' _

/-- The rewritten tag of a height-free removal result is height-free. -/
theorem hasAttr_hName_replaceWidths {s : List Char} (h : hasAttr hName s = false) :
    hasAttr hName (replaceWidths s) = false :=
  hasAttr_hName_replaceWidths_aux s.length s le_rfl h

/-- C1 (amended): for an input whose tag span contains both a height and
a width pattern occurrence, the rewrite succeeds and replaces every
occurrence of the tag span by the rewritten tag span; provided the
height removal neither re-creates a height occurrence (by gluing the
text surrounding a removed match) nor destroys every width occurrence
(when a width match overlapped a removed height match) — both hold for
ordinary whitespace-separated attribute lists — the rewritten tag span
contains no height occurrence and contains the literal `width="100%"`
put in place of a width match. -/
theorem C1_amended (s : List Char) (i e : Nat)
    (hf : findSub svgOpen s = some i) (hc : findChar '>' (s.drop i) = some e)
    (_hh : hasAttr hName (tagSpan s) = true)
    (_hw : hasAttr wName (tagSpan s) = true)
    (hh' : hasAttr hName (removeHeights (tagSpan s)) = false)
    (hw' : hasAttr wName (removeHeights (tagSpan s)) = true) :
    svg_size_full_width s = .ok (replaceSub (tagSpan s) (rewriteTag (tagSpan s)) s)
    ∧ hasAttr hName (rewriteTag (tagSpan s)) = false
    ∧ ∃ a b, rewriteTag (tagSpan s) = a ++ widthLit ++ b := by
  refine ⟨?_, ?_, ?_⟩
  · rw [tagSpan_eq hf hc]
    exact svg_ok_eq hf hc
  · exact hasAttr_hName_replaceWidths hh'
  · unfold rewriteTag replaceWidths
    rcases Option.isSome_iff_exists.mp hw' with ⟨p, hp⟩
    exact replaceAll_contains_repl hp

/-- C1 amended, witness. -/
theorem C1_amended_witness :
    svg_size_full_width "<svg height=\"2\" width=\"3\">x".data
      = .ok (replaceSub (tagSpan "<svg height=\"2\" width=\"3\">x".data)
          (rewriteTag (tagSpan "<svg height=\"2\" width=\"3\">x".data))
          "<svg height=\"2\" width=\"3\">x".data)
    ∧ hasAttr hName (rewriteTag (tagSpan "<svg height=\"2\" width=\"3\">x".data)) = false
    ∧ ∃ a b, rewriteTag (tagSpan "<svg height=\"2\" width=\"3\">x".data)
        = a ++ widthLit ++ b :=
  C1_amended "<svg height=\"2\" width=\"3\">x".data 0 25 rfl rfl rfl rfl rfl rfl

/-! ## Locating the rewritten tag span in the rewritten document -/

theorem findChar_decomp {c : Char} {t : List Char} {e : Nat} (h : findChar c t = some e) :
    t.take (e + 1) = t.take e ++ [c] ∧ c ∉ t.take e := by
  rcases findChar_eq_some_iff.mp h with ⟨he, hat, hbefore⟩
  have hgt : t[e]? = some c := by
    rw [List.drop_eq_getElem_cons he] at hat
    simp only [List.take_succ_cons, List.take_zero] at hat
    injection hat with h1 _
    simp [List.getElem?_eq_getElem he, h1]
  constructor
  · rw [List.take_succ, hgt]
    rfl
  · intro hmem
    rcases List.getElem_of_mem hmem with ⟨j, hj, hjc⟩
    have hjlen : j < t.length := by
      have := List.length_take e t
      omega
    have hje : j < e := by
      have := List.length_take e t
      omega
    rw [List.getElem_take] at hjc
    have : (t.drop j).take 1 = [c] := by
      rw [List.drop_eq_getElem_cons hjlen]
      simp [hjc]
    exact hbefore j hje this

theorem replaceSub_first (pat repl : List Char) (hpat : pat ≠ []) :
    ∀ {s : List Char} {i : Nat},
      (∀ j < i, (s.drop j).take pat.length ≠ pat) →
      (s.drop i).take pat.length = pat →
      replaceSub pat repl s
        = s.take i ++ repl ++ replaceSub pat repl (s.drop (i + pat.length)) := by
  intro s
  induction s with
  | nil =>
    intro i _ hat
    exfalso
    rw [List.drop_nil, List.take_nil] at hat
    exact hpat hat.symm
  | cons c cs ih =>
    intro i hbefore hat
    have hplen : 1 ≤ pat.length := by
      cases hp : pat with
      | nil => exact absurd hp hpat
      | cons a as => simp [hp]
    cases i with
    | zero =>
      simp only [List.drop_zero] at hat
      rw [replaceSub_cons, if_pos hat]
      simp only [List.take_zero, List.nil_append, Nat.zero_add]
      have harith : pat.length = (pat.length - 1) + 1 := by omega
      rw [harith, List.drop_succ_cons]
      have harith2 : pat.length - 1 + 1 - 1 = pat.length - 1 := by omega
      rw [harith2]
    | succ i' =>
      have h0 := hbefore 0 (by omega)
      simp only [List.drop_zero] at h0
      rw [replaceSub_cons, if_neg h0]
      have hbefore' : ∀ j < i', (cs.drop j).take pat.length ≠ pat := fun j hj => by
        have := hbefore (j + 1) (by omega)
        simpa using this
      have hat' : (cs.drop i').take pat.length = pat := by simpa using hat
      have harith : i' + 1 + pat.length = (i' + pat.length) + 1 := by omega
      rw [List.take_succ_cons, harith, List.drop_succ_cons, ih hbefore' hat']
      simp

theorem replaceSub_self_aux (pat : List Char) (hpat : pat ≠ []) :
    ∀ (N : Nat) (x : List Char), x.length ≤ N → replaceSub pat pat x = x := by
  intro N
  induction N with
  | zero =>
    intro x hx
    have : x = [] := List.length_eq_zero.mp (by omega)
    subst this
    rfl
  | succ N ih =>
    intro x hx
    cases x with
    | nil => rfl
    | cons c cs =>
      have hplen : 1 ≤ pat.length := by
        cases hp : pat with
        | nil => exact absurd hp hpat
        | cons a as => simp [hp]
      rw [replaceSub_cons]
      by_cases hmatch : (c :: cs).take pat.length = pat
      · rw [if_pos hmatch]
        have hrec : replaceSub pat pat (cs.drop (pat.length - 1)) = cs.drop (pat.length - 1) := by
          apply ih
          have := List.length_drop (pat.length - 1) cs
          simp only [List.length_cons] at hx
          omega
        rw [hrec]
        conv_rhs => rw [← List.take_append_drop pat.length (c :: cs), hmatch]
        congr 1
        have harith : pat.length = (pat.length - 1) + 1 := by omega
        rw [harith, List.drop_succ_cons]
        have harith2 : pat.length - 1 + 1 - 1 = pat.length - 1 := by omega
        rw [harith2]
      · rw [if_neg hmatch]
        have hrec : replaceSub pat pat cs = cs := by
          apply ih
          simp only [List.length_cons] at hx
          omega
        rw [hrec]

theorem replaceSub_self (pat : List Char) (hpat : pat ≠ []) (x : List Char) :
    replaceSub pat pat x = x :=
  replaceSub_self_aux pat hpat x.length x le_rfl

/-- A pattern match never reaches across the final `>` of a tag span:
replacing matches in `u ++ ['>']` with a `>`-free replacement yields a
string of the same shape. -/
theorem replaceAll_append_gt {name repl : List Char} (hne : name ≠ [])
    (hgn : '>' ∉ name) (hgr : '>' ∉ repl) :
    ∀ (N : Nat) (u : List Char), u.length ≤ N → '>' ∉ u →
      ∃ u', replaceAll name repl (u ++ ['>']) = u' ++ ['>'] ∧ '>' ∉ u' := by
  intro N
  induction N with
  | zero =>
    intro u hu hgu
    have : u = [] := List.length_eq_zero.mp (by omega)
    subst this
    refine ⟨[], ?_, by simp⟩
    simp only [List.nil_append]
    apply replaceAll_id_of_no_match
    intro q
    cases q with
    | zero =>
      simp only [List.drop_zero]
      cases hn : name with
      | nil => exact absurd hn hne
      | cons a as =>
        refine attrMatch_cons_none (fun h => ?_) _
        rw [hn] at hgn
        rw [h] at hgn
        exact hgn (List.mem_cons_self a as)
    | succ q' =>
      rw [show (['>'] : List Char).drop (q' + 1) = [] from by simp]
      exact attrMatch_nil hne
  | succ N ih =>
    intro u hu hgu
    cases hfa : findAttr name (u ++ ['>']) with
    | none =>
      refine ⟨u, ?_, hgu⟩
      apply replaceAll_id_of_no_match
      intro q
      by_cases hq : q < (u ++ ['>']).length
      · have hwfalse : hasAttr name (u ++ ['>']) = false := by simp [hasAttr, hfa]
        exact (hasAttr_eq_false_iff hne).mp hwfalse q
      · rw [List.drop_eq_nil_of_le (by omega)]
        exact attrMatch_nil hne
    | some p =>
      rcases findAttr_eq_some_iff.mp hfa with ⟨hp, hsome, hnone⟩
      rcases Option.isSome_iff_exists.mp hsome with ⟨n, hn⟩
      rcases attrMatch_eq_some_iff.mp hn with ⟨sp₁, sp₂, v, r, hdec, hw₁, hw₂, hv, hnval⟩
      -- p = u.length is impossible: the suffix would be ['>'], which
      -- cannot start with the '>'-free nonempty name
      have hplt : p < u.length := by
        rcases Nat.lt_or_ge p u.length with h' | h'
        · exact h'
        · exfalso
          have hlen : (u ++ ['>']).length = u.length + 1 := by simp
          have hpe : p = u.length := by omega
          rw [hpe, List.drop_append_eq_append_drop, List.drop_eq_nil_of_le le_rfl,
              Nat.sub_self, List.drop_zero, List.nil_append] at hdec
          cases hname : name with
          | nil => exact hne hname
          | cons a as =>
            rw [hname] at hdec
            simp only [List.cons_append] at hdec
            injection hdec with h1 _
            rw [hname] at hgn
            rw [← h1] at hgn
            exact hgn (List.mem_cons_self _ _)
      have hdrop : (u ++ ['>']).drop p = u.drop p ++ ['>'] := by
        rw [List.drop_append_eq_append_drop, Nat.sub_eq_zero_of_le (by omega),
            List.drop_zero]
      -- the match cannot include the final '>': its last character is '"'
      have hpn : p + n ≤ u.length := by
        by_contra hcon
        push_neg at hcon
        have hlen1 : u.length - p + 1 = n + r.length := by
          have := congrArg List.length hdec
          rw [hdrop] at this
          simp only [List.length_append, List.length_cons, List.length_nil,
            List.length_drop] at this
          omega
        have hr : r = [] := by
          have : r.length = 0 := by omega
          exact List.length_eq_zero.mp this
        rw [hdrop, hr] at hdec
        have hlast := congrArg List.getLast? hdec
        rw [List.getLast?_concat] at hlast
        have hform : name ++ (sp₁ ++ '=' :: (sp₂ ++ '"' :: (v ++ '"' :: ([] : List Char))))
            = (name ++ sp₁ ++ '=' :: sp₂ ++ '"' :: v) ++ ['"'] := by
          simp
        rw [hform, List.getLast?_concat] at hlast
        injection hlast with h1
        exact absurd h1 (by decide)
      -- decompose and recurse on the tail
      have hfirst : replaceAll name repl (u ++ ['>'])
          = (u ++ ['>']).take p ++ repl ++ replaceAll name repl ((u ++ ['>']).drop (p + n)) :=
        replaceAll_first_match hnone hn
      have htake : (u ++ ['>']).take p = u.take p := by
        rw [List.take_append_eq_append_take, Nat.sub_eq_zero_of_le (by omega),
            List.take_zero, List.append_nil]
      have hdrop2 : (u ++ ['>']).drop (p + n) = u.drop (p + n) ++ ['>'] := by
        rw [List.drop_append_eq_append_drop, Nat.sub_eq_zero_of_le (by omega),
            List.drop_zero]
      have hn3 : 3 ≤ n := by
        have := attrMatch_pos hn
        omega
      rcases ih (u.drop (p + n)) (by rw [List.length_drop]; omega)
          (fun hmem => hgu (List.drop_subset _ _ hmem)) with ⟨u'', hu'', hgu''⟩
      refine ⟨u.take p ++ repl ++ u'', ?_, ?_⟩
      · rw [hfirst, htake, hdrop2, hu'']
        simp
      · intro hmem
        rcases List.mem_append.mp hmem with h1 | h1
        · rcases List.mem_append.mp h1 with h2 | h2
          · exact hgu (List.take_subset _ _ h2)
          · exact hgr h2
        · exact hgu'' h1

/-- Neither replacement pass touches the `<svg` prefix of the tag span:
no match can start on one of its four characters. -/
theorem replaceAll_svgOpen_head {c₀ : Char} {name' : List Char}
    (h1 : '<' ≠ c₀) (h2 : 's' ≠ c₀) (h3 : 'v' ≠ c₀) (h4 : 'g' ≠ c₀)
    (repl x : List Char) :
    replaceAll (c₀ :: name') repl (svgOpen ++ x) = svgOpen ++ replaceAll (c₀ :: name') repl x := by
  have e1 : svgOpen ++ x = '<' :: ('s' :: ('v' :: ('g' :: x))) := rfl
  rw [e1, replaceAll_cons, attrMatch_cons_none h1]
  simp only
  rw [replaceAll_cons, attrMatch_cons_none h2]
  simp only
  rw [replaceAll_cons, attrMatch_cons_none h3]
  simp only
  rw [replaceAll_cons, attrMatch_cons_none h4]
  simp only
  rfl

theorem rewriteTag_svgOpen (x : List Char) :
    rewriteTag (svgOpen ++ x) = svgOpen ++ rewriteTag x := by
  unfold rewriteTag replaceWidths removeHeights
  rw [show hName = 'h' :: "eight".data from rfl,
      show wName = 'w' :: "idth".data from rfl]
  rw [replaceAll_svgOpen_head (by decide) (by decide) (by decide) (by decide),
      replaceAll_svgOpen_head (by decide) (by decide) (by decide) (by decide)]

theorem tag_facts {s : List Char} {i e : Nat}
    (hf : findSub svgOpen s = some i) (hc : findChar '>' (s.drop i) = some e) :
    4 ≤ e
    ∧ ((s.drop i).take (e + 1)).take 4 = svgOpen
    ∧ ((s.drop i).take (e + 1)).length = e + 1
    ∧ (s.drop i).take (e + 1) = (s.drop i).take e ++ ['>']
    ∧ '>' ∉ (s.drop i).take e := by
  rcases findSub_eq_some_iff.mp hf with ⟨hi, hat4, _⟩
  have hsvg : (s.drop i).take 4 = svgOpen := by
    have h4 : svgOpen.length = 4 := rfl
    rw [h4] at hat4
    exact hat4
  rcases findChar_eq_some_iff.mp hc with ⟨he, _, hbefore⟩
  rcases findChar_decomp hc with ⟨hdec, hnotin⟩
  have ht : s.drop i = svgOpen ++ (s.drop i).drop 4 := by
    conv_lhs => rw [← List.take_append_drop 4 (s.drop i), hsvg]
  have he4 : 4 ≤ e := by
    by_contra hlt
    push_neg at hlt
    interval_cases e
    · have hat := (findChar_eq_some_iff.mp hc).2.1
      rw [ht] at hat
      rw [show (((svgOpen ++ (s.drop i).drop 4)).drop 0).take 1 = ['<'] from rfl] at hat
      exact absurd hat (by decide)
    · have hat := (findChar_eq_some_iff.mp hc).2.1
      rw [ht] at hat
      rw [show (((svgOpen ++ (s.drop i).drop 4)).drop 1).take 1 = ['s'] from rfl] at hat
      exact absurd hat (by decide)
    · have hat := (findChar_eq_some_iff.mp hc).2.1
      rw [ht] at hat
      rw [show (((svgOpen ++ (s.drop i).drop 4)).drop 2).take 1 = ['v'] from rfl] at hat
      exact absurd hat (by decide)
    · have hat := (findChar_eq_some_iff.mp hc).2.1
      rw [ht] at hat
      rw [show (((svgOpen ++ (s.drop i).drop 4)).drop 3).take 1 = ['g'] from rfl] at hat
      exact absurd hat (by decide)
  refine ⟨he4, ?_, ?_, hdec, hnotin⟩
  · rw [List.take_take, Nat.min_eq_left (by omega)]
    exact hsvg
  · rw [List.length_take]
    omega

theorem rewriteTag_structure {s : List Char} {i e : Nat}
    (hf : findSub svgOpen s = some i) (hc : findChar '>' (s.drop i) = some e) :
    ∃ y ntb, rewriteTag ((s.drop i).take (e + 1)) = svgOpen ++ y
      ∧ rewriteTag ((s.drop i).take (e + 1)) = ntb ++ ['>']
      ∧ '>' ∉ ntb := by
  obtain ⟨he4, htake4, hlen, hdec, hnotin⟩ := tag_facts hf hc
  have htsplit : (s.drop i).take (e + 1) = svgOpen ++ ((s.drop i).take (e + 1)).drop 4 := by
    conv_lhs => rw [← List.take_append_drop 4 ((s.drop i).take (e + 1)), htake4]
  have h1 : rewriteTag ((s.drop i).take (e + 1))
      = svgOpen ++ rewriteTag (((s.drop i).take (e + 1)).drop 4) := by
    conv_lhs => rw [htsplit]
    exact rewriteTag_svgOpen _
  have hH : ∃ u', removeHeights ((s.drop i).take e ++ ['>']) = u' ++ ['>'] ∧ '>' ∉ u' := by
    unfold removeHeights
    exact replaceAll_append_gt (by decide) (by decide) (by simp)
      ((s.drop i).take e).length _ le_rfl hnotin
  rcases hH with ⟨u', hu', hgu'⟩
  have hW : ∃ u'', replaceWidths (u' ++ ['>']) = u'' ++ ['>'] ∧ '>' ∉ u'' := by
    unfold replaceWidths
    exact replaceAll_append_gt (by decide) (by decide) (by decide)
      u'.length _ le_rfl hgu'
  rcases hW with ⟨u'', hu'', hgu''⟩
  refine ⟨rewriteTag (((s.drop i).take (e + 1)).drop 4), u'', h1, ?_, hgu''⟩
  unfold rewriteTag
  rw [hdec, hu', hu'']

theorem replaceSub_output_decomp {s : List Char} {i e : Nat}
    (hf : findSub svgOpen s = some i) (hc : findChar '>' (s.drop i) = some e)
    (nt : List Char) :
    replaceSub ((s.drop i).take (e + 1)) nt s
      = s.take i ++ nt ++ replaceSub ((s.drop i).take (e + 1)) nt (s.drop (i + (e + 1))) := by
  obtain ⟨he4, htake4, hlen, _, _⟩ := tag_facts hf hc
  rcases findSub_eq_some_iff.mp hf with ⟨hi, hat4, hbefore4⟩
  have h4 : svgOpen.length = 4 := rfl
  have hsvg : (s.drop i).take 4 = svgOpen := by
    rw [h4] at hat4
    exact hat4
  have hpatne : (s.drop i).take (e + 1) ≠ [] := by
    intro hnil
    have := congrArg List.length hnil
    rw [hlen] at this
    simp at this
  have hbefore : ∀ j < i, (s.drop j).take ((s.drop i).take (e + 1)).length
      ≠ (s.drop i).take (e + 1) := by
    intro j hj heq
    have h44 := congrArg (List.take 4) heq
    rw [List.take_take, List.take_take, hlen, Nat.min_eq_left (by omega), hsvg] at h44
    exact hbefore4 j hj (by rw [h4]; exact h44)
  have hat : (s.drop i).take ((s.drop i).take (e + 1)).length = (s.drop i).take (e + 1) := by
    rw [hlen]
  have hmain := replaceSub_first ((s.drop i).take (e + 1)) nt hpatne hbefore hat
  rw [hlen] at hmain
  exact hmain

theorem output_located {s : List Char} {i e : Nat}
    (hf : findSub svgOpen s = some i) (hc : findChar '>' (s.drop i) = some e) :
    ∃ e₂,
      findSub svgOpen
        (replaceSub ((s.drop i).take (e + 1)) (rewriteTag ((s.drop i).take (e + 1))) s)
        = some i
      ∧ findChar '>'
          ((replaceSub ((s.drop i).take (e + 1))
            (rewriteTag ((s.drop i).take (e + 1))) s).drop i) = some e₂
      ∧ ((replaceSub ((s.drop i).take (e + 1))
            (rewriteTag ((s.drop i).take (e + 1))) s).drop i).take (e₂ + 1)
          = rewriteTag ((s.drop i).take (e + 1)) := by
  obtain ⟨y, ntb, hnty, hntb, hgntb⟩ := rewriteTag_structure hf hc
  have hTd := replaceSub_output_decomp hf hc (rewriteTag ((s.drop i).take (e + 1)))
  rcases findSub_eq_some_iff.mp hf with ⟨hi, hat4, hbefore4⟩
  have h4 : svgOpen.length = 4 := rfl
  have hsvg : (s.drop i).take 4 = svgOpen := by
    rw [h4] at hat4
    exact hat4
  have hlA : (s.take i).length = i := by
    rw [List.length_take]
    omega
  have hTdrop : ((replaceSub ((s.drop i).take (e + 1))
      (rewriteTag ((s.drop i).take (e + 1))) s).drop i)
      = rewriteTag ((s.drop i).take (e + 1))
        ++ replaceSub ((s.drop i).take (e + 1))
            (rewriteTag ((s.drop i).take (e + 1))) (s.drop (i + (e + 1))) := by
    rw [hTd, List.append_assoc, List.drop_append_eq_append_drop,
        List.drop_eq_nil_of_le (le_of_eq hlA), hlA, Nat.sub_self, List.drop_zero,
        List.nil_append]
  refine ⟨ntb.length, ?_, ?_, ?_⟩
  · -- the rewritten document still has its first "<svg" at position i
    rw [hTd]
    apply findSub_eq_some_iff.mpr
    refine ⟨?_, ?_, ?_⟩
    · simp only [List.length_append, hlA]
      have : 0 < (rewriteTag ((s.drop i).take (e + 1))).length := by
        rw [hnty]
        simp [svgOpen]
      omega
    · have hdropi : (s.take i ++ rewriteTag ((s.drop i).take (e + 1))
          ++ replaceSub ((s.drop i).take (e + 1))
              (rewriteTag ((s.drop i).take (e + 1))) (s.drop (i + (e + 1)))).drop i
          = rewriteTag ((s.drop i).take (e + 1))
            ++ replaceSub ((s.drop i).take (e + 1))
                (rewriteTag ((s.drop i).take (e + 1))) (s.drop (i + (e + 1))) := by
        rw [List.append_assoc, List.drop_append_eq_append_drop,
            List.drop_eq_nil_of_le (le_of_eq hlA), hlA, Nat.sub_self, List.drop_zero,
            List.nil_append]
      rw [hdropi, hnty, h4, List.append_assoc, List.take_append_eq_append_take,
          Nat.sub_eq_zero_of_le (by simp [svgOpen]), List.take_zero, List.append_nil,
          List.take_of_length_le (by simp [svgOpen])]
    · intro j hj
      rw [List.append_assoc, List.drop_append_eq_append_drop, hlA,
          Nat.sub_eq_zero_of_le (by omega), List.drop_zero]
      have hAdj : (s.take i).drop j = (s.drop j).take (i - j) := List.drop_take ..
      rw [List.take_append_eq_append_take]
      rcases Nat.lt_or_ge (i - j) 4 with hk | hk
      · -- fewer than 4 characters of the prefix remain before the
        -- rewritten tag, whose first character '<' cannot continue "<svg"
        intro heq
        have hklen : ((s.take i).drop j).length = i - j := by
          rw [List.length_drop, hlA]
        rw [h4, hklen] at heq
        have heq2 := congrArg (List.drop (i - j)) heq
        rw [List.drop_append_eq_append_drop,
            List.drop_eq_nil_of_le (by rw [List.length_take, hklen]; omega),
            Nat.sub_eq_zero_of_le (by rw [List.length_take, hklen]; omega),
            List.drop_zero, List.nil_append] at heq2
        have hk1 : 1 ≤ i - j := by omega
        have hcase : i - j = 1 ∨ i - j = 2 ∨ i - j = 3 := by omega
        rcases hcase with h' | h' | h'
        all_goals
          rw [h'] at heq2
          revert heq2
          generalize replaceSub ((s.drop i).take (e + 1))
            (rewriteTag ((s.drop i).take (e + 1))) (s.drop (i + (e + 1))) = R
          rw [hnty, List.append_assoc]
          intro heq2
        · rw [show ∀ L : List Char, (svgOpen ++ L).take (4 - 1) = ['<', 's', 'v']
            from fun L => rfl] at heq2
          exact absurd heq2 (by decide)
        · rw [show ∀ L : List Char, (svgOpen ++ L).take (4 - 2) = ['<', 's']
            from fun L => rfl] at heq2
          exact absurd heq2 (by decide)
        · rw [show ∀ L : List Char, (svgOpen ++ L).take (4 - 3) = ['<']
            from fun L => rfl] at heq2
          exact absurd heq2 (by decide)
      · -- at least 4 characters of the original prefix remain: reuse the
        -- minimality of i in the original document
        rw [h4, Nat.sub_eq_zero_of_le (by rw [List.length_drop, hlA]; omega),
            List.take_zero, List.append_nil, hAdj, List.take_take,
            Nat.min_eq_left (by omega)]
        intro heq
        exact hbefore4 j hj (by rw [h4]; exact heq)
  · -- the first '>' from position i is the final one of the rewritten tag
    rw [hTdrop, hntb, List.append_assoc, List.singleton_append]
    apply findChar_eq_some_iff.mpr
    refine ⟨by simp, ?_, ?_⟩
    · rw [List.drop_append_eq_append_drop, List.drop_eq_nil_of_le le_rfl,
          Nat.sub_self, List.drop_zero, List.nil_append]
      rfl
    · intro j hj
      rw [List.drop_append_eq_append_drop, Nat.sub_eq_zero_of_le (by omega),
          List.drop_zero]
      cases hd : ntb.drop j with
      | nil =>
        exfalso
        have := congrArg List.length hd
        rw [List.length_drop] at this
        simp at this
        omega
      | cons d ds =>
        simp only [List.cons_append]
        intro heq
        simp only [List.take_succ_cons, List.take_zero] at heq
        injection heq with hd1 _
        apply hgntb
        rw [← hd1]
        exact List.drop_subset _ _ (by rw [hd]; exact List.mem_cons_self d ds)
  · -- taking e₂ + 1 characters recovers exactly the rewritten tag
    rw [hTdrop, hntb, List.append_assoc, List.singleton_append,
        List.take_append_eq_append_take, List.take_of_length_le (by omega),
        show ntb.length + 1 - ntb.length = 1 from by omega]
    rfl

/-- C4 (amended): the rewriter is idempotent on every input whose
rewritten tag span is a fixed point of the tag rewrite — in particular
whenever the height removal does not glue surrounding text into a new
height or width pattern occurrence, which holds for ordinary
whitespace-separated attribute lists.  (The unconditional claim fails:
see the counterexample.)  On such inputs a second application succeeds
and returns its input unchanged. -/
theorem C4_amended (s : List Char) (i e : Nat)
    (hf : findSub svgOpen s = some i) (hc : findChar '>' (s.drop i) = some e)
    (hfix : rewriteTag (rewriteTag (tagSpan s)) = rewriteTag (tagSpan s)) :
    ∃ t, svg_size_full_width s = .ok t ∧ svg_size_full_width t = .ok t := by
  have htag := tagSpan_eq hf hc
  rw [htag] at hfix
  obtain ⟨y, ntb, hnty, _, _⟩ := rewriteTag_structure hf hc
  have hne : rewriteTag ((s.drop i).take (e + 1)) ≠ [] := by
    intro hnil
    rw [hnty] at hnil
    rcases List.append_eq_nil.mp hnil with ⟨h1, _⟩
    exact absurd h1 (by decide)
  obtain ⟨e₂, hf₂, hc₂, htag₂⟩ := output_located hf hc
  refine ⟨replaceSub ((s.drop i).take (e + 1)) (rewriteTag ((s.drop i).take (e + 1))) s,
    svg_ok_eq hf hc, ?_⟩
  have h2 := svg_ok_eq hf₂ hc₂
  rw [htag₂, hfix, replaceSub_self _ hne _] at h2
  exact h2

/-- C4 amended, witness. -/
theorem C4_amended_witness :
    ∃ t, svg_size_full_width "<svg height=\"2\" width=\"3\">x".data = .ok t
      ∧ svg_size_full_width t = .ok t :=
  C4_amended "<svg height=\"2\" width=\"3\">x".data 0 25 rfl rfl rfl

/-- C9, witness. -/
theorem C9_no_colon_witness : ':' ∉ normalizePage "Icons:Arrow".data :=
  C9_no_colon "Icons:Arrow".data

/-- C10: the regexes match raw substrings inside the tag span, not
attribute names: the value parts of `stroke-width="…"` attributes are
rewritten to `width="100%"`, `line-height="…"` attributes lose their
`height="…"` part (leaving `line-`), and every occurrence is affected,
not only the first. -/
theorem C10_raw_substring :
    svg_size_full_width
        ("<svg stroke-width=\"2\" line-height=\"1.5\" stroke-width=\"7\""
          ++ " line-height=\"3\" width=\"10\" height=\"4\">x").data
      = .ok ("<svg stroke-width=\"100%\" line- stroke-width=\"100%\""
          ++ " line- width=\"100%\" >x").data
    ∧ hasAttr wName "stroke-width=\"2\"".data = true
    ∧ hasAttr hName "line-height=\"1.5\"".data = true
    ∧ (∀ v r : List Char, '"' ∉ v →
        attrMatch hName ("height=".data ++ '"' :: (v ++ '"' :: r)) = some (9 + v.length))
    ∧ (∀ v r : List Char, '"' ∉ v →
        attrMatch wName ("width=".data ++ '"' :: (v ++ '"' :: r)) = some (8 + v.length)) := by
  refine ⟨rfl, rfl, rfl, ?_, ?_⟩
  · intro v r hv
    apply attrMatch_eq_some_iff.mpr
    exact ⟨[], [], v, r, rfl, by simp, by simp, hv, by simp [hName]; omega⟩
  · intro v r hv
    apply attrMatch_eq_some_iff.mpr
    exact ⟨[], [], v, r, rfl, by simp, by simp, hv, by simp [wName]; omega⟩

/-- C10, witness. -/
theorem C10_raw_substring_witness :
    attrMatch hName ("height=".data ++ '"' :: ("2".data ++ '"' :: [])) = some (9 + "2".data.length) :=
  C10_raw_substring.2.2.2.1 "2".data [] (by decide)
